import Mathlib

/-!
Shallow embedding of `src/main.rs` (an STM32F3 compass demo): the I2C
magnetometer read transaction (`get_compass`), the `BoolFuture` polling
adapter, the TIM6 one-shot delay (`delay`), the angle-to-octant mapping
(`angle_to_direction`), the heading computation (`mag_to_angle`), the
timer-branch position integration of the control loop, and the LED update
at the end of each loop iteration.

Register-level hardware interaction is modelled by explicit event traces:
each register write/read the code performs is recorded as an event, and
each `BoolFuture(..).await` spin on a status flag is recorded either as an
abstract wait event (for the I2C transaction, whose ordering claim is
stated at that granularity) or as an explicit sequence of flag polls
driven by a schedule of flag values (for the timer delay).
Machine integers are modelled as `Nat`/`Int` with explicit `% 2^w`
reductions where the Rust code works in `u8`/`u16`/`i16`/`u32`.
-/

namespace Compass

/-- The `Direction` enum from the `aux14` support crate, as used by
`angle_to_direction` in `src/main.rs` (eight compass octants indexing the
eight LEDs). -/
inductive Direction where
  | North
  | Northeast
  | East
  | Southeast
  | South
  | Southwest
  | West
  | Northwest
deriving DecidableEq, Repr

/-- Rust `const MAGNETOMETER: u8 = 0b001_1110;` — the magnetometer's
7-bit slave address. -/
def MAGNETOMETER : Nat := 0b0011110

/-- Rust `const OUT_X_H_M: u8 = 0x03;` — address of the first
magnetic-data output register. -/
def OUT_X_H_M : Nat := 0x03

/-- The `as i16` reinterpretation of a 16-bit unsigned value as a
two's-complement signed 16-bit integer. -/
def toI16 (n : Nat) : Int :=
  if n % 65536 < 32768 then (n % 65536 : Int) else (n % 65536 : Int) - 65536

/-- Bus-register operations performed by `get_compass`, at the granularity
of the transaction protocol: writes to CR2/TXDR with their field values,
reads from RXDR with the byte obtained, and one abstract wait event per
`BoolFuture(..).await` spin on an ISR status flag. -/
inductive I2CEv where
  | writeCR2 (start : Bool) (sadd : Nat) (rd_wrn : Bool) (nbytes : Nat) (autoend : Bool)
  | waitTxis
  | writeTXDR (txdata : Nat)
  | waitTc
  | modifyCR2 (start : Bool) (rd_wrn : Bool) (nbytes : Nat) (autoend : Bool)
  | waitRxne
  | readRXDR (rxdata : Nat)
deriving DecidableEq, Repr

/-- The byte-collection loop of `get_compass`
(`for byte in &mut buffer { ... }`): starting at buffer index `i`, for
each of the `n` remaining buffer slots, await RXNE and then read one byte
from RXDR. `rx j` is the byte the hardware delivers for the `j`-th RXDR
read; the RXDATA field is 8 bits wide, hence the `% 256`. Returns the
event trace of the loop and the bytes collected. -/
def read_bytes (rx : Nat → Nat) : Nat → Nat → List I2CEv × List Nat
  | _, 0 => ([], [])
  | i, n + 1 =>
    let b := rx i % 256
    let rest := read_bytes rx (i + 1) n
    (I2CEv.waitRxne :: I2CEv.readRXDR b :: rest.1, b :: rest.2)

/-- Embedding of `async fn get_compass(i2c1) -> (i16, i16, i16)` from
`src/main.rs`, lines 54–102, as a function from the hardware's RXDR byte
schedule `rx` to the trace of bus-register operations performed and the
decoded `(x, y, z)` triple. The statements appear in source order: the
CR2 write starting the 1-byte write phase, the TXIS wait, the TXDR write
of `OUT_X_H_M`, the TC wait, the CR2 modify starting the 6-byte read
phase, the six-iteration receive loop, then the byte assembly
`((high << 8) + low) as i16` (in `u16` arithmetic, hence the `% 65536`). -/
def get_compass (rx : Nat → Nat) : List I2CEv × Int × Int × Int :=
  let phase1 : List I2CEv :=
    [I2CEv.writeCR2 true MAGNETOMETER false 1 false]
  let phase2 : List I2CEv := [I2CEv.waitTxis]
  let phase3 : List I2CEv := [I2CEv.writeTXDR OUT_X_H_M]
  let phase4 : List I2CEv := [I2CEv.waitTc]
  let phase5 : List I2CEv := [I2CEv.modifyCR2 true true 6 true]
  let recv := read_bytes rx 0 6
  let buffer := recv.2
  let x_h := buffer.getD 0 0
  let x_l := buffer.getD 1 0
  let z_h := buffer.getD 2 0
  let z_l := buffer.getD 3 0
  let y_h := buffer.getD 4 0
  let y_l := buffer.getD 5 0
  let x := toI16 ((x_h <<< 8) % 65536 + x_l)
  let y := toI16 ((y_h <<< 8) % 65536 + y_l)
  let z := toI16 ((z_h <<< 8) % 65536 + z_l)
  (phase1 ++ phase2 ++ phase3 ++ phase4 ++ phase5 ++ recv.1, (x, y, z))

/-- The `Poll` result type from `core::task`. -/
inductive PollRes where
  | Ready
  | Pending
deriving DecidableEq, Repr

/-- Observable actions of one `BoolFuture::poll` call: a
`cx.waker().wake_by_ref()` invocation, or returning a poll result. -/
inductive FEv where
  | wake
  | ret (r : PollRes)
deriving DecidableEq, Repr

/-- Embedding of `impl Future for BoolFuture — fn poll` (`src/main.rs`
lines 40–47) as the ordered list of observable actions of one poll call,
given the value `p` the wrapped predicate returns on this call: if `p` is
true, return `Poll::Ready(())`; otherwise call `wake_by_ref` and then
return `Poll::Pending`. -/
def boolFuture_poll (p : Bool) : List FEv :=
  if p then [FEv.ret PollRes.Ready] else [FEv.wake, FEv.ret PollRes.Pending]

/-- Register operations performed by `delay`: the ARR write, the CR1
modify enabling the counter, each poll of the SR UIF flag (with the value
observed), and the SR modify clearing UIF. -/
inductive TimEv where
  | writeARR (arr : Nat)
  | setCEN
  | pollUIF (uif : Bool)
  | clearUIF
deriving DecidableEq, Repr

/-- The `BoolFuture(|| tim6.sr.read().uif().bit_is_set()).await` spin in
`delay`, driven by the schedule `uifs` of successive UIF flag readings:
polls the flag until the first `true`; if the schedule is exhausted
without the flag ever reading set, the future never completes (`none`). -/
def spin_uif : List Bool → Option (List TimEv)
  | [] => none
  | b :: rest =>
    if b then some [TimEv.pollUIF true]
    else (spin_uif rest).map fun tr => TimEv.pollUIF false :: tr

/-- Embedding of `async fn delay(ms: u16, tim6)` (`src/main.rs` lines
130–141) as a function from the tick count and the UIF flag schedule to
the trace of timer-register operations of one completed run (`none` when
the flag is never observed set, i.e. the run does not complete). In
source order: write `ms` to ARR (a 16-bit register, hence `% 65536`), set
CEN, await UIF, clear UIF. -/
def delay (ms : Nat) (uifs : List Bool) : Option (List TimEv) :=
  (spin_uif uifs).map fun tr =>
    TimEv.writeARR (ms % 65536) :: TimEv.setCEN :: (tr ++ [TimEv.clearUIF])

/-- The saturating Rust `as u32` cast from a float, modelled over `ℚ` in
exact arithmetic: truncate toward zero, clamping negative values to `0`
and values beyond `u32::MAX` to `4294967295` (NaN cannot arise in this
model). -/
def f32_as_u32 (q : ℚ) : Nat :=
  if q < 0 then 0 else min (Int.toNat q.floor) 4294967295

/-- The `match angle_rounded { ... }` table of `angle_to_direction`
(`src/main.rs` lines 157–168); `none` models the `panic!` arm. -/
def direction_of_rounded : Nat → Option Direction
  | 0 => some Direction.South
  | 1 => some Direction.Southeast
  | 2 => some Direction.East
  | 3 => some Direction.Northeast
  | 4 => some Direction.North
  | 5 => some Direction.Northwest
  | 6 => some Direction.West
  | 7 => some Direction.Southwest
  | 8 => some Direction.South
  | _ => none

/-- Embedding of `fn angle_to_direction(angle: f32) -> Direction`
(`src/main.rs` lines 154–169), modelled over `ℚ` in exact arithmetic
(the inputs and constants used in the claims below are exactly
representable and the operations on them exact in `f32`):
`angle_chunked = (angle + 22.5) / 45.0`,
`angle_rounded = angle_chunked as u32` (saturating cast), then the match
table, with `none` for the `panic!` arm. -/
def angle_to_direction (angle : ℚ) : Option Direction :=
  let angle_chunked := (angle + 22.5) / 45
  let angle_rounded := f32_as_u32 angle_chunked
  direction_of_rounded angle_rounded

/-- Tagged events emitted by the merged stream of
`stream::select(get_compass_forever(..).map(Either::Left),
delay_forever(..).map(Either::Right))` in `main` (`src/main.rs` lines
195–199): either the `i`-th sensor sample or the `i`-th timer tick. -/
inductive Tagged where
  | sensor (i : Nat)
  | timer (i : Nat)
deriving DecidableEq, Repr

/-- Which underlying branch the merge combinator polls. -/
inductive Branch where
  | sensor
  | timer
deriving DecidableEq, Repr

/-- State of the merge combinator: the index of the in-flight element of
each branch and the number of further polls that element still returns
`Pending` before completing (`0` means the next poll completes it). -/
structure MergeState where
  sIdx : Nat
  sRem : Nat
  tIdx : Nat
  tRem : Nat
deriving DecidableEq, Repr

/-- Modelled from the spec: the Merge Combinator realized in
`src/main.rs` lines 195–199 by `futures::stream::select`, whose
implementation is not part of this repository's sources. Following §4.5
of the spec: on each cycle the combinator polls the sensor sequence's
in-flight element; if still pending it then polls the timer sequence's
in-flight element; the first to report completion yields a Tagged Event
for that branch, and a fresh pending element is immediately requested
from the same branch. `sa k` (resp. `ta k`) is the number of `Pending`
polls the `k`-th sensor (resp. timer) element returns before completing.
Returns the successor state, the branches polled this cycle in order, and
the event emitted (if any). -/
def mergeCycle (sa ta : Nat → Nat) (st : MergeState) :
    MergeState × List Branch × Option Tagged :=
  if st.sRem = 0 then
    ({ st with sIdx := st.sIdx + 1, sRem := sa (st.sIdx + 1) },
      [Branch.sensor], some (Tagged.sensor st.sIdx))
  else if st.tRem = 0 then
    ({ st with sRem := st.sRem - 1, tIdx := st.tIdx + 1, tRem := ta (st.tIdx + 1) },
      [Branch.sensor, Branch.timer], some (Tagged.timer st.tIdx))
  else
    ({ st with sRem := st.sRem - 1, tRem := st.tRem - 1 },
      [Branch.sensor, Branch.timer], none)

/-- Run the merge combinator for `n` executor cycles from state `st`,
collecting the emitted Tagged Events in order. -/
def mergeRun (sa ta : Nat → Nat) (st : MergeState) : Nat → MergeState × List Tagged
  | 0 => (st, [])
  | n + 1 =>
    let c := mergeCycle sa ta st
    let rest := mergeRun sa ta c.1 n
    (rest.1, c.2.2.toList ++ rest.2)

/-- Project the sensor index out of a tagged event. -/
def sensorIdx : Tagged → Option Nat
  | Tagged.sensor i => some i
  | Tagged.timer _ => none

/-- Project the timer index out of a tagged event. -/
def timerIdx : Tagged → Option Nat
  | Tagged.sensor _ => none
  | Tagged.timer i => some i

/-- Four-quadrant arctangent on reals, the mathematical function computed
by `f32::atan2` (`self = y`, argument `x`), in exact arithmetic. -/
noncomputable def atan2 (y x : ℝ) : ℝ :=
  if 0 < x then Real.arctan (y / x)
  else if x = 0 then
    (if 0 < y then Real.pi / 2 else if y < 0 then -(Real.pi / 2) else 0)
  else if 0 ≤ y then Real.arctan (y / x) + Real.pi
  else Real.arctan (y / x) - Real.pi

/-- Embedding of `fn mag_to_angle(mag: (i16, i16, i16)) -> f32`
(`src/main.rs` lines 147–151): `(y as f32).atan2(x as f32) / PI * 180.0`,
in exact real arithmetic. -/
noncomputable def mag_to_angle (mag : Int × Int × Int) : ℝ :=
  atan2 (mag.2.1 : ℝ) (mag.1 : ℝ) / Real.pi * 180

/-- Truncation toward zero of a rational (the integral part used by the
Rust float remainder operator). -/
def ratTrunc (q : ℚ) : Int := q.num / (q.den : Int)

/-- The Rust `%` operator on floats (remainder with the dividend's sign),
over `ℚ` in exact arithmetic: `a - b * trunc(a / b)`. Used by `main` in
`(mag_to_angle(last_mag) + 360.0) % 360.0`. -/
def f32_rem (a b : ℚ) : ℚ := a - b * (ratTrunc (a / b) : ℚ)

/-- Rust `const TIMER_S: f32 = 0.1;` (`src/main.rs` line 172), in exact
arithmetic (the `f32` rounding of the literal is immaterial to the claims
below). -/
noncomputable def TIMER_S : ℝ := 0.1

/-- `f32::EPSILON = 2^{-23}`, exactly. -/
noncomputable def EPSILON : ℝ := 1 / 2 ^ 23

/-- Embedding of the `Either::Right(())` (timer-tick) arm of the control
loop's `for_each` closure (`src/main.rs` lines 205–220): with the most
recent magnetometer sample's `x`, `y` components (as floats) and the
current position, compute `norm = (x*x + y*y).sqrt()` and, only when
`norm < f32::EPSILON`, divide `x` and `y` by `norm` and integrate the
position by `TIMER_S`; otherwise leave the position unchanged. (The
`timer_cycle` counter the arm also increments is used nowhere else and is
omitted.) -/
noncomputable def timer_branch (x y : ℝ) (pos : ℝ × ℝ) : ℝ × ℝ :=
  let norm := Real.sqrt (x * x + y * y)
  if norm < EPSILON then
    (pos.1 + x / norm * TIMER_S, pos.2 + y / norm * TIMER_S)
  else pos

/-- The `leds.iter_mut().for_each(|led| led.off())` sweep at the end of
every `for_each` iteration (`src/main.rs` line 226), on the LED state
indexed by `Direction`. -/
def leds_all_off (_leds : Direction → Bool) : Direction → Bool := fun _ => false

/-- Turning a single LED on (`leds[mag_dir].on()`, `src/main.rs`
line 227). -/
def led_on (d : Direction) (leds : Direction → Bool) : Direction → Bool :=
  fun e => if e = d then true else leds e

/-- The complete LED update at the end of every `for_each` iteration
(`src/main.rs` lines 226–227): all LEDs off, then the LED indexed by the
derived direction on. -/
def leds_update (mag_dir : Direction) (leds : Direction → Bool) : Direction → Bool :=
  led_on mag_dir (leds_all_off leds)

/-! ## Theorems -/

/-- Disjoint-bit value assembly: for an 8-bit low byte,
`high <<< 8 ||| low` coincides with `high * 256 + low`. -/
theorem shiftLeft_lor_eq (hi lo : Nat) (h : lo < 256) :
    (hi <<< 8) ||| lo = hi * 256 + lo := by
  have h2 : lo < 2 ^ 8 := h
  have := Nat.mul_add_lt_is_or h2 hi
  have hs : hi <<< 8 = 2 ^ 8 * hi := by
    rw [Nat.shiftLeft_eq]; ring
  rw [hs, ← this]; ring

/-- C1: a single run of `get_compass` performs register operations in
exactly this order: one CR2 write (start set, slave address `0b0011110`,
write direction, `nbytes = 1`, autoend off); a wait for TXIS; one TXDR
write of register address `0x03`; a wait for TC; one CR2 modify (start
set, read direction, `nbytes = 6`, autoend on); then six repetitions of
(wait for RXNE, read one byte from RXDR) — and nothing else, in no other
order, for every hardware byte schedule `rx`. -/
theorem get_compass_trace (rx : Nat → Nat) :
    (get_compass rx).1 =
      [I2CEv.writeCR2 true 0b0011110 false 1 false,
       I2CEv.waitTxis,
       I2CEv.writeTXDR 0x03,
       I2CEv.waitTc,
       I2CEv.modifyCR2 true true 6 true,
       I2CEv.waitRxne, I2CEv.readRXDR (rx 0 % 256),
       I2CEv.waitRxne, I2CEv.readRXDR (rx 1 % 256),
       I2CEv.waitRxne, I2CEv.readRXDR (rx 2 % 256),
       I2CEv.waitRxne, I2CEv.readRXDR (rx 3 % 256),
       I2CEv.waitRxne, I2CEv.readRXDR (rx 4 % 256),
       I2CEv.waitRxne, I2CEv.readRXDR (rx 5 % 256)] := by
  simp [get_compass, read_bytes, MAGNETOMETER, OUT_X_H_M]

/-- C2: for every 6-byte buffer received, the returned triple `(X, Y, Z)`
satisfies `X = sign-extend16(B[0]<<8 ||| B[1])`,
`Z = sign-extend16(B[2]<<8 ||| B[3])`,
`Y = sign-extend16(B[4]<<8 ||| B[5])`; and on the concrete buffer
`[0x01, 0x00, 0x00, 0x00, 0xFF, 0xFF]` the result is `X = 256`, `Z = 0`,
`Y = -1`. -/
theorem get_compass_decode (rx : Nat → Nat) :
    (get_compass rx).2 =
      (toI16 (((rx 0 % 256) <<< 8) ||| (rx 1 % 256)),
       toI16 (((rx 4 % 256) <<< 8) ||| (rx 5 % 256)),
       toI16 (((rx 2 % 256) <<< 8) ||| (rx 3 % 256))) ∧
    (get_compass (fun i => [0x01, 0x00, 0x00, 0x00, 0xFF, 0xFF].getD i 0)).2 =
      (256, -1, 0) := by
  constructor
  · have h0 : rx 0 % 256 < 256 := Nat.mod_lt _ (by norm_num)
    have h1 : rx 1 % 256 < 256 := Nat.mod_lt _ (by norm_num)
    have h2 : rx 2 % 256 < 256 := Nat.mod_lt _ (by norm_num)
    have h3 : rx 3 % 256 < 256 := Nat.mod_lt _ (by norm_num)
    have h4 : rx 4 % 256 < 256 := Nat.mod_lt _ (by norm_num)
    have h5 : rx 5 % 256 < 256 := Nat.mod_lt _ (by norm_num)
    rw [shiftLeft_lor_eq _ _ h1, shiftLeft_lor_eq _ _ h3, shiftLeft_lor_eq _ _ h5]
    have hsh : ∀ a : Nat, a < 256 → (a <<< 8) % 65536 = a * 256 := by
      intro a ha
      have hlt : a * 2 ^ 8 < 65536 := by norm_num; omega
      rw [Nat.shiftLeft_eq, Nat.mod_eq_of_lt hlt]
      norm_num
    norm_num [get_compass, read_bytes, List.getD, List.get?]
    rw [hsh _ h0, hsh _ h2, hsh _ h4]
    exact ⟨rfl, rfl, rfl⟩
  · decide

/-- C3: for every predicate value, a `BoolFuture` poll returns `Ready` if
and only if the predicate evaluates to true on that poll; whenever it
returns `Pending` it invokes the wake request before returning (the poll's
action list is exactly wake-then-Pending); it never invokes the wake
request on a poll that returns `Ready`; and on the predicate sequence
`[false, false, true]` the concatenated action trace is exactly two
(wake, Pending) pairs followed by one `Ready`. -/
theorem boolFuture_poll_contract (p : Bool) :
    (FEv.ret PollRes.Ready ∈ boolFuture_poll p ↔ p = true) ∧
    (p = false → boolFuture_poll p = [FEv.wake, FEv.ret PollRes.Pending]) ∧
    (p = true → FEv.wake ∉ boolFuture_poll p) ∧
    (List.map boolFuture_poll [false, false, true]).flatten =
      [FEv.wake, FEv.ret PollRes.Pending, FEv.wake, FEv.ret PollRes.Pending,
       FEv.ret PollRes.Ready] := by
  cases p <;> exact ⟨by decide, by decide, by decide, by decide⟩

/-- Witness for C3 at concrete predicate values. -/
theorem boolFuture_poll_contract_witness :
    boolFuture_poll false = [FEv.wake, FEv.ret PollRes.Pending] ∧
    FEv.wake ∉ boolFuture_poll true :=
  ⟨(boolFuture_poll_contract false).2.1 rfl,
   (boolFuture_poll_contract true).2.2.1 rfl⟩

/-- The UIF spin yields exactly one `false` poll per leading unset flag
reading, then one `true` poll, and succeeds only if the flag is observed
set. -/
theorem spin_uif_spec (uifs : List Bool) (tr : List TimEv)
    (h : spin_uif uifs = some tr) :
    true ∈ uifs ∧
    tr = List.replicate (uifs.takeWhile (fun b => b = false)).length
          (TimEv.pollUIF false) ++ [TimEv.pollUIF true] := by
  induction uifs generalizing tr with
  | nil => simp [spin_uif] at h
  | cons b rest ih =>
    cases b with
    | true =>
      simp [spin_uif] at h
      subst h
      simp [List.takeWhile]
    | false =>
      simp only [spin_uif, Bool.false_eq_true, if_false] at h
      cases hrest : spin_uif rest with
      | none => rw [hrest] at h; simp at h
      | some tr' =>
        rw [hrest] at h
        simp only [Option.map_some', Option.some.injEq] at h
        obtain ⟨hmem, htr'⟩ := ih tr' hrest
        refine ⟨by simp [hmem], ?_⟩
        rw [← h, htr']
        simp [List.takeWhile, List.replicate_succ]

/-- C7: every completed run of `delay ms` performs, in order: one ARR
write of the tick count `ms`, one CR1 modify setting CEN, a sequence of
UIF polls reading unset followed by one UIF poll reading set, and one SR
modify clearing UIF — and it completes only if the UIF flag is observed
set in the schedule. -/
theorem delay_protocol (ms : Nat) (uifs : List Bool) (tr : List TimEv)
    (h : delay ms uifs = some tr) :
    true ∈ uifs ∧
    tr = TimEv.writeARR (ms % 65536) :: TimEv.setCEN ::
      (List.replicate (uifs.takeWhile (fun b => b = false)).length
          (TimEv.pollUIF false) ++ [TimEv.pollUIF true, TimEv.clearUIF]) := by
  unfold delay at h
  cases hspin : spin_uif uifs with
  | none => rw [hspin] at h; simp at h
  | some tr' =>
    rw [hspin] at h
    simp only [Option.map_some', Option.some.injEq] at h
    obtain ⟨hmem, htr'⟩ := spin_uif_spec uifs tr' hspin
    refine ⟨hmem, ?_⟩
    rw [← h, htr']
    simp

/-- Witness for C7 on a concrete flag schedule. -/
theorem delay_protocol_witness :
    true ∈ [false, true] ∧
    [TimEv.writeARR 100, TimEv.setCEN, TimEv.pollUIF false, TimEv.pollUIF true,
      TimEv.clearUIF] = TimEv.writeARR (100 % 65536) :: TimEv.setCEN ::
      (List.replicate ([false, true].takeWhile (fun b => b = false)).length
          (TimEv.pollUIF false) ++ [TimEv.pollUIF true, TimEv.clearUIF]) :=
  delay_protocol 100 [false, true]
    [TimEv.writeARR 100, TimEv.setCEN, TimEv.pollUIF false, TimEv.pollUIF true,
      TimEv.clearUIF] (by decide)

/-- The executable `Rat.floor` agrees with the floor of the ordered
field `ℚ`. -/
theorem rat_floor_eq (q : ℚ) : q.floor = ⌊q⌋ := by
  rw [Rat.floor_def', Rat.floor_def]

/-- C6 counterexample: the angle `-45` lies outside every enumerated
bucket (the buckets cover `[-22.5, 382.5)`), yet `angle_to_direction`
does not hit the `panic!` arm: the saturating `as u32` cast sends the
negative chunked value to `0`, silently yielding `South` — while the same
heading expressed in range, `315`, yields `Southwest`. -/
theorem angle_to_direction_neg_no_panic :
    angle_to_direction (-45) = some Direction.South ∧
    angle_to_direction 315 = some Direction.Southwest := by
  constructor
  · have hneg : ((-45 : ℚ) + 22.5) / 45 < 0 := by norm_num
    simp [angle_to_direction, f32_as_u32, if_pos hneg, direction_of_rounded]
  · have hnonneg : ¬(((315 : ℚ) + 22.5) / 45 < 0) := by norm_num
    have hfl : ⌊((315 : ℚ) + 22.5) / 45⌋ = (7 : Int) := by
      rw [Int.floor_eq_iff] <;> norm_num
    simp only [angle_to_direction, f32_as_u32, if_neg hnonneg, rat_floor_eq, hfl]
    rfl

/-- Out-of-table rounded values hit the `panic!` arm. -/
theorem direction_of_rounded_ge_nine (n : Nat) (h : 9 ≤ n) :
    direction_of_rounded n = none := by
  obtain ⟨k, rfl⟩ : ∃ k, n = k + 9 := ⟨n - 9, by omega⟩
  rfl

/-- C6 (amended): `angle_to_direction` panics only upward: every angle in
bucket `k` (for `k ≤ 8`, the enumerated buckets covering
`[-22.5, 382.5)`) maps to the documented octant `direction_of_rounded k`;
every angle `≥ 382.5` triggers the `panic!` arm; but every angle
`< -22.5` does not panic — the saturating float-to-`u32` cast clamps the
negative chunked value to bucket `0`, silently returning `South`. -/
theorem angle_to_direction_total (q : ℚ) (k : Nat) :
    (q < -22.5 → angle_to_direction q = some Direction.South) ∧
    (k ≤ 8 → 45 * k - 22.5 ≤ q → q < 45 * k + 22.5 →
      angle_to_direction q = direction_of_rounded k) ∧
    (382.5 ≤ q → angle_to_direction q = none) := by
  have h45 : (0 : ℚ) < 45 := by norm_num
  refine ⟨?_, ?_, ?_⟩
  · intro hq
    have hneg : (q + 22.5) / 45 < 0 := by
      apply div_neg_of_neg_of_pos _ h45
      linarith
    simp [angle_to_direction, f32_as_u32, if_pos hneg, direction_of_rounded]
  · intro hk hlo hhi
    have hchunk_lo : (k : ℚ) ≤ (q + 22.5) / 45 := by
      rw [le_div_iff₀ h45]
      linarith
    have hchunk_hi : (q + 22.5) / 45 < (k : ℚ) + 1 := by
      rw [div_lt_iff₀ h45]
      linarith
    have hfloor : ⌊(q + 22.5) / 45⌋ = (k : Int) := by
      rw [Int.floor_eq_iff]
      constructor
      · exact_mod_cast hchunk_lo
      · push_cast
        exact hchunk_hi
    have hnonneg : ¬((q + 22.5) / 45 < 0) := by
      push_neg
      calc (0 : ℚ) ≤ (k : ℚ) := by positivity
        _ ≤ (q + 22.5) / 45 := hchunk_lo
    simp only [angle_to_direction, f32_as_u32, if_neg hnonneg, rat_floor_eq, hfloor]
    have htn : Int.toNat (k : Int) = k := by omega
    rw [htn, min_eq_left (by omega)]
  · intro hq
    have hchunk : (9 : ℚ) ≤ (q + 22.5) / 45 := by
      rw [le_div_iff₀ h45]
      linarith
    have hfloor : (9 : Int) ≤ ⌊(q + 22.5) / 45⌋ := by
      rw [Int.le_floor]
      exact_mod_cast hchunk
    have hnonneg : ¬((q + 22.5) / 45 < 0) := by
      push_neg
      linarith
    simp only [angle_to_direction, f32_as_u32, if_neg hnonneg, rat_floor_eq]
    apply direction_of_rounded_ge_nine
    refine le_min_iff.mpr ⟨by omega, by norm_num⟩

/-- Witness for C6 (amended) at concrete angles. -/
theorem angle_to_direction_total_witness :
    angle_to_direction 0 = direction_of_rounded 0 ∧
    angle_to_direction 400 = none :=
  ⟨(angle_to_direction_total 0 0).2.1 (by norm_num) (by norm_num) (by norm_num),
   (angle_to_direction_total 400 0).2.2 (by norm_num)⟩

/-- C4: in every merge-combinator cycle the sensor branch is polled
first; the timer branch is polled exactly when the sensor's in-flight
element is still pending; the first branch to complete yields the next
Tagged Event, carrying that branch's in-flight index; and a fresh pending
element is immediately requested from that same branch (its poll budget
reloaded from the branch's schedule), the other branch's in-flight
element being left untouched. -/
theorem mergeCycle_poll_order (sa ta : Nat → Nat) (st : MergeState) :
    ((mergeCycle sa ta st).2.1.head? = some Branch.sensor) ∧
    (Branch.timer ∈ (mergeCycle sa ta st).2.1 ↔ st.sRem ≠ 0) ∧
    (st.sRem = 0 →
      (mergeCycle sa ta st).2.2 = some (Tagged.sensor st.sIdx) ∧
      (mergeCycle sa ta st).1 =
        { st with sIdx := st.sIdx + 1, sRem := sa (st.sIdx + 1) }) ∧
    (st.sRem ≠ 0 → st.tRem = 0 →
      (mergeCycle sa ta st).2.2 = some (Tagged.timer st.tIdx) ∧
      (mergeCycle sa ta st).1 =
        { st with sRem := st.sRem - 1, tIdx := st.tIdx + 1,
                  tRem := ta (st.tIdx + 1) }) ∧
    (st.sRem ≠ 0 → st.tRem ≠ 0 →
      (mergeCycle sa ta st).2.2 = none ∧
      (mergeCycle sa ta st).1 =
        { st with sRem := st.sRem - 1, tRem := st.tRem - 1 }) := by
  by_cases hs : st.sRem = 0 <;> by_cases ht : st.tRem = 0 <;>
    simp [mergeCycle, hs, ht]

/-- Witness for C4 on concrete cycle states. -/
theorem mergeCycle_poll_order_witness :
    (mergeCycle (fun _ => 1) (fun _ => 1) ⟨0, 0, 0, 0⟩).2.2 =
      some (Tagged.sensor 0) ∧
    (mergeCycle (fun _ => 1) (fun _ => 1) ⟨0, 2, 0, 0⟩).2.2 =
      some (Tagged.timer 0) :=
  ⟨((mergeCycle_poll_order (fun _ => 1) (fun _ => 1) ⟨0, 0, 0, 0⟩).2.2.1 rfl).1,
   ((mergeCycle_poll_order (fun _ => 1) (fun _ => 1) ⟨0, 2, 0, 0⟩).2.2.2.1
      (by decide) rfl).1⟩

/-- Over any run of the merge combinator, each branch's in-flight index
never decreases and the events tagged for that branch are exactly the
consecutive element indices starting from the initial in-flight index. -/
theorem mergeRun_events (sa ta : Nat → Nat) :
    ∀ (n : Nat) (st : MergeState),
      st.sIdx ≤ (mergeRun sa ta st n).1.sIdx ∧
      st.tIdx ≤ (mergeRun sa ta st n).1.tIdx ∧
      (mergeRun sa ta st n).2.filterMap sensorIdx =
        List.range' st.sIdx ((mergeRun sa ta st n).1.sIdx - st.sIdx) ∧
      (mergeRun sa ta st n).2.filterMap timerIdx =
        List.range' st.tIdx ((mergeRun sa ta st n).1.tIdx - st.tIdx) := by
  intro n
  induction n with
  | zero =>
    intro st
    simp [mergeRun]
  | succ n ih =>
    intro st
    by_cases hs : st.sRem = 0
    · have hstep : mergeRun sa ta st (n + 1) =
          ((mergeRun sa ta ⟨st.sIdx + 1, sa (st.sIdx + 1), st.tIdx, st.tRem⟩ n).1,
            Tagged.sensor st.sIdx ::
              (mergeRun sa ta ⟨st.sIdx + 1, sa (st.sIdx + 1), st.tIdx, st.tRem⟩ n).2) := by
        simp [mergeRun, mergeCycle, hs]
      obtain ⟨h1, h2, h3, h4⟩ := ih ⟨st.sIdx + 1, sa (st.sIdx + 1), st.tIdx, st.tRem⟩
      dsimp only at h1 h2 h3 h4
      rw [hstep]
      dsimp only
      refine ⟨by omega, h2, ?_, ?_⟩
      · rw [List.filterMap_cons_some
          (show sensorIdx (Tagged.sensor st.sIdx) = some st.sIdx from rfl), h3]
        have hsub :
            (mergeRun sa ta ⟨st.sIdx + 1, sa (st.sIdx + 1), st.tIdx, st.tRem⟩ n).1.sIdx - st.sIdx =
            ((mergeRun sa ta ⟨st.sIdx + 1, sa (st.sIdx + 1), st.tIdx, st.tRem⟩ n).1.sIdx - (st.sIdx + 1)) + 1 := by
          omega
        rw [hsub, List.range'_succ]
      · rw [List.filterMap_cons_none
          (show timerIdx (Tagged.sensor st.sIdx) = none from rfl)]
        exact h4
    · by_cases ht : st.tRem = 0
      · have hstep : mergeRun sa ta st (n + 1) =
            ((mergeRun sa ta ⟨st.sIdx, st.sRem - 1, st.tIdx + 1, ta (st.tIdx + 1)⟩ n).1,
              Tagged.timer st.tIdx ::
                (mergeRun sa ta ⟨st.sIdx, st.sRem - 1, st.tIdx + 1, ta (st.tIdx + 1)⟩ n).2) := by
          simp [mergeRun, mergeCycle, hs, ht]
        obtain ⟨h1, h2, h3, h4⟩ := ih ⟨st.sIdx, st.sRem - 1, st.tIdx + 1, ta (st.tIdx + 1)⟩
        dsimp only at h1 h2 h3 h4
        rw [hstep]
        dsimp only
        refine ⟨h1, by omega, ?_, ?_⟩
        · rw [List.filterMap_cons_none
            (show sensorIdx (Tagged.timer st.tIdx) = none from rfl)]
          exact h3
        · rw [List.filterMap_cons_some
            (show timerIdx (Tagged.timer st.tIdx) = some st.tIdx from rfl), h4]
          have hsub :
              (mergeRun sa ta ⟨st.sIdx, st.sRem - 1, st.tIdx + 1, ta (st.tIdx + 1)⟩ n).1.tIdx - st.tIdx =
              ((mergeRun sa ta ⟨st.sIdx, st.sRem - 1, st.tIdx + 1, ta (st.tIdx + 1)⟩ n).1.tIdx - (st.tIdx + 1)) + 1 := by
            omega
          rw [hsub, List.range'_succ]
      · have hstep : mergeRun sa ta st (n + 1) =
            ((mergeRun sa ta ⟨st.sIdx, st.sRem - 1, st.tIdx, st.tRem - 1⟩ n).1,
              (mergeRun sa ta ⟨st.sIdx, st.sRem - 1, st.tIdx, st.tRem - 1⟩ n).2) := by
          simp [mergeRun, mergeCycle, hs, ht]
        obtain ⟨h1, h2, h3, h4⟩ := ih ⟨st.sIdx, st.sRem - 1, st.tIdx, st.tRem - 1⟩
        dsimp only at h1 h2 h3 h4
        rw [hstep]
        dsimp only
        exact ⟨h1, h2, h3, h4⟩

/-- C5: the merge never drops an event: over any `n`-cycle run from the
initial state (both branches' first elements freshly in flight), the
emitted Tagged Event sequence contains the sensor-tagged events for
exactly the sensor elements that completed, in completion order
`0, 1, 2, …`, and likewise for the timer-tagged events — where the
number of completed elements of a branch is its final in-flight index,
and the interleaving is the one determined by the per-cycle poll order
of `mergeCycle`. -/
theorem merge_no_drop (sa ta : Nat → Nat) (n : Nat) :
    ((mergeRun sa ta ⟨0, sa 0, 0, ta 0⟩ n).2.filterMap sensorIdx =
      List.range (mergeRun sa ta ⟨0, sa 0, 0, ta 0⟩ n).1.sIdx) ∧
    ((mergeRun sa ta ⟨0, sa 0, 0, ta 0⟩ n).2.filterMap timerIdx =
      List.range (mergeRun sa ta ⟨0, sa 0, 0, ta 0⟩ n).1.tIdx) := by
  obtain ⟨h1, h2, h3, h4⟩ := mergeRun_events sa ta n ⟨0, sa 0, 0, ta 0⟩
  rw [List.range_eq_range']
  constructor
  · simpa using h3
  · rw [List.range_eq_range']
    simpa using h4

/-- C8: the end-to-end scenario: on raw bytes
`[0x00, 0x64, 0x00, 0x00, 0x00, 0x00]` the transaction decodes the sample
`(X, Y, Z) = (100, 0, 0)`; the derived heading angle
`mag_to_angle (100, 0, 0)` is `0`; the control loop's wrap
`(0 + 360) % 360` is `0`; and the resulting octant
`angle_to_direction 0` is `South`. -/
theorem end_to_end_south :
    (get_compass (fun i => [0x00, 0x64, 0x00, 0x00, 0x00, 0x00].getD i 0)).2 =
      (100, 0, 0) ∧
    mag_to_angle (100, 0, 0) = 0 ∧
    f32_rem (0 + 360) 360 = 0 ∧
    angle_to_direction 0 = some Direction.South := by
  refine ⟨by decide, ?_, ?_, ?_⟩
  · show atan2 ((0 : Int) : ℝ) ((100 : Int) : ℝ) / Real.pi * 180 = 0
    rw [show ((0 : Int) : ℝ) = 0 by norm_num,
      show ((100 : Int) : ℝ) = 100 by norm_num]
    simp only [atan2]
    rw [if_pos (by norm_num : (0 : ℝ) < 100)]
    norm_num [Real.arctan_zero]
  · norm_num [f32_rem, ratTrunc]
  · have hnonneg : ¬(((0 : ℚ) + 22.5) / 45 < 0) := by norm_num
    have hfl : ⌊((0 : ℚ) + 22.5) / 45⌋ = (0 : Int) := by
      rw [Int.floor_eq_iff] <;> norm_num
    simp only [angle_to_direction, f32_as_u32, if_neg hnonneg, rat_floor_eq, hfl]
    rfl

/-- C9: in the control loop's timer-tick arm, the normalization guard is
indeed inverted: the division of `x` and `y` by `norm` and the position
update are executed exactly when `norm < f32::EPSILON` holds — whenever
`norm < EPSILON` the position is integrated with the divided components,
and whenever `EPSILON ≤ norm` the position is left unchanged. -/
theorem timer_branch_guard (x y px py : ℝ) :
    (Real.sqrt (x * x + y * y) < EPSILON →
      timer_branch x y (px, py) =
        (px + x / Real.sqrt (x * x + y * y) * TIMER_S,
         py + y / Real.sqrt (x * x + y * y) * TIMER_S)) ∧
    (EPSILON ≤ Real.sqrt (x * x + y * y) →
      timer_branch x y (px, py) = (px, py)) := by
  constructor
  · intro h
    simp [timer_branch, h]
  · intro h
    simp [timer_branch, not_lt.mpr h]

/-- Witness for C9 at a concrete sample: with `(x, y) = (1, 0)` the norm
is `1 ≥ EPSILON`, so the position is unchanged. -/
theorem timer_branch_guard_witness :
    timer_branch 1 0 (5, 7) = (5, 7) :=
  (timer_branch_guard 1 0 5 7).2 (by
    rw [show (1 : ℝ) * 1 + 0 * 0 = 1 by norm_num, Real.sqrt_one]
    norm_num [EPSILON])

/-- C10: after the control loop processes any tagged event, with `dir`
the octant derived (via `angle_to_direction`) from the most recent
magnetometer sample's wrapped heading angle, the LED update first turns
every LED off and then turns on the LED indexed by `dir`: at the end of
the iteration an LED is lit if and only if it is the one indexed by
`dir`, so exactly one LED is lit. -/
theorem leds_update_one_lit (leds : Direction → Bool) (a : ℚ) (dir : Direction)
    (h : angle_to_direction a = some dir) (d : Direction) :
    leds_update dir leds d = true ↔ d = dir := by
  unfold leds_update led_on leds_all_off
  by_cases hd : d = dir <;> simp [hd]

/-- Witness for C10 with the derived direction `South` (heading `0`): the
`South` LED is lit and another LED is not. -/
theorem leds_update_one_lit_witness :
    leds_update Direction.South (fun _ => true) Direction.South = true ∧
    leds_update Direction.South (fun _ => true) Direction.West = false := by
  have h : angle_to_direction 0 = some Direction.South := by
    have hnonneg : ¬(((0 : ℚ) + 22.5) / 45 < 0) := by norm_num
    have hfl : ⌊((0 : ℚ) + 22.5) / 45⌋ = (0 : Int) := by
      rw [Int.floor_eq_iff] <;> norm_num
    simp only [angle_to_direction, f32_as_u32, if_neg hnonneg, rat_floor_eq, hfl]
    rfl
  constructor
  · exact (leds_update_one_lit (fun _ => true) 0 Direction.South h
      Direction.South).mpr rfl
  · have hw := (leds_update_one_lit (fun _ => true) 0 Direction.South h
      Direction.West)
    simp only [show (Direction.West = Direction.South) = False from by
      simp, iff_false] at hw
    exact Bool.not_eq_true _ |>.mp hw

end Compass
